import Mathlib

/-!
Shallow embedding of the `recio` record-framing library (`src/recio.go`).

The wire format is a 4-byte little-endian unsigned 32-bit length followed by
the payload. `recordWriter.Write` emits `uint32(len(p))` in little-endian and
then the payload; `recordReader.Read` decodes a length prefix via
`binary.Read` (which uses `io.ReadFull`), skips oversized frames with
`io.CopyN(io.Discard, …)`, and otherwise issues a single underlying read.

Bytes are modelled as `Nat`; the underlying byte source is modelled by its
remaining byte list with the semantics of Go's `bytes.Reader`, the source
used by the repository's unit tests (`TestSimple`, `TestVariableSizes`,
`TestTargetBufferTooSmall`): a read at end-of-data returns `(0, io.EOF)`
(even for an empty destination), otherwise it copies
`min requested available` bytes and returns no error. Sinks are modelled
abstractly by a state type plus a write function, with a `bytes.Buffer`-like
always-succeeding instance `bufSink` and a capacity-limited failing instance
`capSink` for exercising writer error paths.

`recordReader.Read` returns `(delivered, remaining, err)` where `delivered`
is the list of bytes placed into the caller's buffer (so the Go return count
`n` is `delivered.length`), `remaining` is the source's unread suffix, and
`err` models the returned Go error (`none` for `nil`).
-/

/-- Errors of the embedding: `eof` is `io.EOF`, `unexpectedEOF` is
`io.ErrUnexpectedEOF`, `targetBufferTooSmall` is the library's
`ErrTargetBufferTooSmall`, `sinkFull` is a sink-side write failure used by
the test sink, and `wrapSkip e` is the `fmt.Errorf` wrap applied when
discarding an oversized frame fails with underlying error `e`. -/
inductive IOErr where
  | eof
  | unexpectedEOF
  | targetBufferTooSmall
  | sinkFull
  | wrapSkip : IOErr → IOErr
  deriving DecidableEq

/-- Little-endian bytes of `uint32(n)`: the four bytes emitted by
`binary.Write(w, binary.LittleEndian, uint32(n))`; the `uint32` conversion's
truncation modulo 2^32 is inherent in the byte extraction. -/
def le32 (n : Nat) : List Nat :=
  [n % 256, n / 256 % 256, n / 65536 % 256, n / 16777216 % 256]

/-- Value of four bytes read as an unsigned 32-bit little-endian integer,
as decoded by `binary.Read(r, binary.LittleEndian, &length)`. -/
def decodeLE32 (b0 b1 b2 b3 : Nat) : Nat :=
  b0 + 256 * b1 + 65536 * b2 + 16777216 * b3

/-- One call of `bytes.Reader.Read` with a destination slice of length `n`:
at end-of-data it returns `(0, io.EOF)` regardless of `n`; otherwise it
copies `min n available` bytes and returns no error. Result is
`(delivered, remaining, err)`. -/
def srcRead (src : List Nat) (n : Nat) : List Nat × List Nat × Option IOErr :=
  if src = [] then ([], src, some .eof)
  else (src.take n, src.drop n, none)

/-- The `binary.Read` of the length prefix: `io.ReadFull` of 4 bytes over a
`bytes.Reader` source. With no bytes left it fails with `io.EOF`; with 1–3
bytes left it consumes them and fails with `io.ErrUnexpectedEOF`; otherwise
it consumes 4 bytes and decodes them little-endian. -/
def binaryReadU32 (src : List Nat) : Except IOErr (Nat × List Nat) :=
  match src with
  | b0 :: b1 :: b2 :: b3 :: rest => .ok (decodeLE32 b0 b1 b2 b3, rest)
  | [] => .error .eof
  | _ => .error .unexpectedEOF

/-- The `io.CopyN(io.Discard, src, n)` skip over a `bytes.Reader` source:
if `n` bytes are available they are dropped and the copy succeeds; if the
source runs out first, `CopyN` reports `io.EOF` (having consumed everything
that was left). -/
def copyNDiscard (src : List Nat) (n : Nat) : Except IOErr (List Nat) :=
  if n ≤ src.length then .ok (src.drop n) else .error .eof

/-- Embedding of `recordReader.Read` from `src/recio.go`: read a 4-byte
little-endian length prefix with `binary.Read`; if
`uint32(len(p)) < length` (note the truncation of the buffer length `cap`
modulo 2^32), discard `length` bytes and return `ErrTargetBufferTooSmall`
(or the wrapped discard error); otherwise return the result of the single
underlying read `r.reader.Read(p[:length])`. -/
def recordReader.Read (src : List Nat) (cap : Nat) :
    List Nat × List Nat × Option IOErr :=
  match binaryReadU32 src with
  | .error e => ([], [], some e)
  | .ok (length, rest) =>
    if cap % 4294967296 < length then
      match copyNDiscard rest length with
      | .error e => ([], [], some (.wrapSkip e))
      | .ok rest' => ([], rest', some .targetBufferTooSmall)
    else
      srcRead rest length

/-- An output byte sink: a state type with a write primitive returning the
new state, the count written, and an optional error — the shape of
`io.Writer` over explicit state. -/
structure Sink (σ : Type) where
  write : σ → List Nat → σ × Nat × Option IOErr

/-- The `bytes.Buffer` sink: always appends everything and succeeds. -/
def bufSink : Sink (List Nat) :=
  ⟨fun s bs => (s ++ bs, bs.length, none)⟩

/-- A capacity-limited test sink: a write that would exceed the capacity
fails atomically with `sinkFull`, leaving the accumulated bytes unchanged. -/
def capSink (limit : Nat) : Sink (List Nat) :=
  ⟨fun s bs =>
    if s.length + bs.length ≤ limit then (s ++ bs, bs.length, none)
    else (s, 0, some .sinkFull)⟩

/-- Embedding of `recordWriter.Write` from `src/recio.go`: write the four
little-endian bytes of `uint32(len(p))` via `binary.Write` (which returns
only the error of the sink's write); on error return `(0, err)` without
touching the payload; otherwise return the sink's result for writing the
payload itself. -/
def recordWriter.Write {σ : Type} (S : Sink σ) (s : σ) (p : List Nat) :
    σ × Nat × Option IOErr :=
  let r := S.write s (le32 p.length)
  match r.2.2 with
  | some e => (r.1, 0, some e)
  | none => S.write r.1 p

/-- Write a sequence of payloads in order with `recordWriter.Write`,
returning the final sink state. -/
def writeAll {σ : Type} (S : Sink σ) (s : σ) : List (List Nat) → σ
  | [] => s
  | p :: ps => writeAll S (recordWriter.Write S s p).1 ps

/-- The bytes one frame occupies on the wire. -/
def encodeFrame (p : List Nat) : List Nat :=
  le32 p.length ++ p

/-- The bytes a sequence of frames occupies on the wire. -/
def encodeFrames : List (List Nat) → List Nat
  | [] => []
  | p :: ps => encodeFrame p ++ encodeFrames ps

/-- Call `recordReader.Read` `n` times with a buffer of capacity `cap`,
collecting each call's `(delivered, err)` and the final remaining source. -/
def readMany (src : List Nat) (cap : Nat) :
    Nat → List (List Nat × Option IOErr) × List Nat
  | 0 => ([], src)
  | n + 1 =>
    let r := recordReader.Read src cap
    let rest := readMany r.2.1 cap n
    ((r.1, r.2.2) :: rest.1, rest.2)

/-- Decoding the four little-endian bytes of a value below 2^32 recovers it. -/
theorem decodeLE32_le32 (n : Nat) (h : n < 4294967296) :
    decodeLE32 (n % 256) (n / 256 % 256) (n / 65536 % 256) (n / 16777216 % 256) = n := by
  simp only [decodeLE32]
  omega

/-- Reading a well-formed frame whose payload fits a buffer shorter than
2^32 delivers the payload, leaves the following bytes unread, and returns no
error — provided the source is not already empty after the prefix (that is,
the payload is nonempty or more bytes follow the frame). -/
theorem read_frame (p tail : List Nat) (cap : Nat) (hcap : cap < 4294967296)
    (hlen : p.length ≤ cap) (hne : p ++ tail ≠ []) :
    recordReader.Read (encodeFrame p ++ tail) cap = (p, tail, none) := by
  have hmod : cap % 4294967296 = cap := Nat.mod_eq_of_lt hcap
  have hdec : decodeLE32 (p.length % 256) (p.length / 256 % 256)
      (p.length / 65536 % 256) (p.length / 16777216 % 256) = p.length :=
    decodeLE32_le32 _ (lt_of_le_of_lt hlen hcap)
  simp only [encodeFrame, le32, List.cons_append, List.nil_append, List.append_assoc]
  simp only [recordReader.Read, binaryReadU32, hdec, hmod]
  rw [if_neg (by omega)]
  simp only [srcRead, if_neg hne, List.take_left, List.drop_left]

/-- Reading a zero-length frame that ends the stream returns no bytes and
the end-of-stream signal of the underlying `bytes.Reader`-style source. -/
theorem read_frame_empty_end (cap : Nat) :
    recordReader.Read (encodeFrame []) cap = ([], [], some .eof) := by
  simp only [encodeFrame, le32, List.length_nil, List.nil_append]
  simp only [recordReader.Read, binaryReadU32, decodeLE32]
  norm_num [srcRead]

/-- The wire bytes of a frame sequence starting with a frame are nonempty. -/
theorem encodeFrames_cons_ne (p : List Nat) (ps : List (List Nat)) :
    encodeFrames (p :: ps) ≠ [] := by
  simp [encodeFrames, encodeFrame, le32]

/-- Writing a payload to the always-succeeding buffer sink appends exactly
one frame and reports the payload's length with no error. -/
theorem write_bufSink (s p : List Nat) :
    recordWriter.Write bufSink s p = (s ++ encodeFrame p, p.length, none) := by
  simp [recordWriter.Write, bufSink, encodeFrame, le32]

/-- Writing a payload sequence to the buffer sink produces exactly the
concatenated frames. -/
theorem writeAll_bufSink (ps : List (List Nat)) (s : List Nat) :
    writeAll bufSink s ps = s ++ encodeFrames ps := by
  induction ps generalizing s with
  | nil => simp [writeAll, encodeFrames]
  | cons p ps ih =>
    simp [writeAll, write_bufSink, encodeFrames, ih, List.append_assoc]

/-- Reading as many times as there are frames, over the frames followed by
`extra`, yields every payload with no error and leaves exactly `extra`,
provided the buffer is shorter than 2^32, every payload fits it, and — when
nothing follows the frames — the last payload is nonempty. -/
theorem readMany_encodeFrames (ps : List (List Nat)) (extra : List Nat) (cap : Nat)
    (hcap : cap < 4294967296) (hfit : ∀ p ∈ ps, p.length ≤ cap)
    (hlast : extra = [] → ps.getLast? ≠ some []) :
    readMany (encodeFrames ps ++ extra) cap ps.length =
      (ps.map fun p => (p, none), extra) := by
  induction ps with
  | nil => simp [readMany, encodeFrames]
  | cons p ps ih =>
    have hp : p.length ≤ cap := hfit p (List.mem_cons_self p ps)
    have hne : p ++ (encodeFrames ps ++ extra) ≠ [] := by
      cases ps with
      | nil =>
        cases hx : extra with
        | nil =>
          have := hlast hx
          simp [List.getLast?] at this
          simp [encodeFrames, hx, this]
        | cons a l => simp [encodeFrames]
      | cons q qs =>
        intro hcontra
        exact encodeFrames_cons_ne q qs (by
          have := List.append_eq_nil.mp hcontra
          exact (List.append_eq_nil.mp this.2).1)
    have hstep : recordReader.Read (encodeFrames (p :: ps) ++ extra) cap =
        (p, encodeFrames ps ++ extra, none) := by
      have := read_frame p (encodeFrames ps ++ extra) cap hcap hp hne
      simpa [encodeFrames, List.append_assoc] using this
    have hlast' : extra = [] → ps.getLast? ≠ some [] := by
      intro hx
      cases ps with
      | nil => simp
      | cons q qs =>
        have := hlast hx
        simpa [List.getLast?_cons_cons] using this
    simp only [List.length_cons, readMany, hstep]
    simp [ih (fun q hq => hfit q (List.mem_cons_of_mem p hq)) hlast']

/-- Reading as many times as there are frames always consumes exactly the
frames: the remaining source is whatever followed them, with no condition on
payload emptiness (an empty last payload only changes the reported error,
not the position). -/
theorem readMany_encodeFrames_rest (ps : List (List Nat)) (extra : List Nat) (cap : Nat)
    (hcap : cap < 4294967296) (hfit : ∀ p ∈ ps, p.length ≤ cap) :
    (readMany (encodeFrames ps ++ extra) cap ps.length).2 = extra := by
  induction ps with
  | nil => simp [readMany, encodeFrames]
  | cons p ps ih =>
    have hp : p.length ≤ cap := hfit p (List.mem_cons_self p ps)
    by_cases hne : p ++ (encodeFrames ps ++ extra) = []
    · have hp0 : p = [] := (List.append_eq_nil.mp hne).1
      have hrest : encodeFrames ps = [] ∧ extra = [] :=
        List.append_eq_nil.mp (List.append_eq_nil.mp hne).2
      have hps : ps = [] := by
        cases ps with
        | nil => rfl
        | cons q qs => exact absurd hrest.1 (encodeFrames_cons_ne q qs)
      subst hp0 hps
      simp only [hrest.2, List.length_cons, List.length_nil]
      simp [readMany, encodeFrames, read_frame_empty_end cap]
    · have hstep : recordReader.Read (encodeFrames (p :: ps) ++ extra) cap =
          (p, encodeFrames ps ++ extra, none) := by
        have := read_frame p (encodeFrames ps ++ extra) cap hcap hp hne
        simpa [encodeFrames, List.append_assoc] using this
      simp only [List.length_cons, readMany, hstep]
      simp [ih (fun q hq => hfit q (List.mem_cons_of_mem p hq))]

/-- Oversized frame whose bytes are all available: the payload is dropped
and `ErrTargetBufferTooSmall` is returned. -/
theorem read_discard_ok (b0 b1 b2 b3 : Nat) (rest : List Nat) (cap : Nat)
    (hbig : cap % 4294967296 < decodeLE32 b0 b1 b2 b3)
    (havail : decodeLE32 b0 b1 b2 b3 ≤ rest.length) :
    recordReader.Read (b0 :: b1 :: b2 :: b3 :: rest) cap =
      ([], rest.drop (decodeLE32 b0 b1 b2 b3), some .targetBufferTooSmall) := by
  simp only [recordReader.Read, binaryReadU32]
  rw [if_pos hbig]
  simp [copyNDiscard, havail]

/-- Oversized frame with too few bytes left to skip: the discard fails with
the source's end-of-data error, wrapped. -/
theorem read_discard_fail (b0 b1 b2 b3 : Nat) (rest : List Nat) (cap : Nat)
    (hbig : cap % 4294967296 < decodeLE32 b0 b1 b2 b3)
    (hshort : rest.length < decodeLE32 b0 b1 b2 b3) :
    recordReader.Read (b0 :: b1 :: b2 :: b3 :: rest) cap =
      ([], [], some (.wrapSkip .eof)) := by
  simp only [recordReader.Read, binaryReadU32]
  rw [if_pos hbig]
  simp [copyNDiscard, Nat.not_le.mpr hshort]

/-- Fitting frame over a nonempty source: the single underlying read copies
`min length available` bytes and reports no error. -/
theorem read_deliver (b0 b1 b2 b3 : Nat) (rest : List Nat) (cap : Nat)
    (hfit : decodeLE32 b0 b1 b2 b3 ≤ cap % 4294967296) (hne : rest ≠ []) :
    recordReader.Read (b0 :: b1 :: b2 :: b3 :: rest) cap =
      (rest.take (decodeLE32 b0 b1 b2 b3), rest.drop (decodeLE32 b0 b1 b2 b3), none) := by
  simp only [recordReader.Read, binaryReadU32]
  rw [if_neg (Nat.not_lt.mpr hfit)]
  simp [srcRead, hne]

/-- Fitting frame with the source exhausted right after the prefix: the
single underlying read returns the source's end-of-data signal. -/
theorem read_deliver_end (b0 b1 b2 b3 cap : Nat)
    (hfit : decodeLE32 b0 b1 b2 b3 ≤ cap % 4294967296) :
    recordReader.Read [b0, b1, b2, b3] cap = ([], [], some .eof) := by
  simp only [recordReader.Read, binaryReadU32]
  rw [if_neg (Nat.not_lt.mpr hfit)]
  simp [srcRead]

/-- A whole well-formed frame too large for the buffer is skipped in full,
leaving the reader at the next frame boundary. -/
theorem read_frame_skip (p tail : List Nat) (cap : Nat)
    (hp : p.length < 4294967296) (hbig : cap % 4294967296 < p.length) :
    recordReader.Read (encodeFrame p ++ tail) cap =
      ([], tail, some .targetBufferTooSmall) := by
  have hdec := decodeLE32_le32 p.length hp
  simp only [encodeFrame, le32, List.cons_append, List.nil_append, List.append_assoc]
  simp only [recordReader.Read, binaryReadU32, hdec]
  rw [if_pos hbig]
  have havail : p.length ≤ (p ++ tail).length := by simp
  simp [copyNDiscard, havail, List.drop_left]

/-- C1: the round-trip claim as frozen is false on the code at two concrete
inputs. First, with a buffer of capacity 2^32 a one-byte payload (which fits
the buffer) is discarded with `ErrTargetBufferTooSmall`, because the skip
decision compares the frame length against `uint32(len(p))`, the capacity
reduced modulo 2^32. Second, a trailing zero-length payload is read back
with the source's end-of-stream error rather than no error, because the
final `r.reader.Read(p[:0])` hits the exhausted `bytes.Reader`. -/
theorem c1_roundtrip_cex :
    ([97].length ≤ 4294967296
      ∧ readMany (writeAll bufSink [] [[97]]) 4294967296 1 =
          ([([], some .targetBufferTooSmall)], []))
    ∧ (([] : List Nat).length ≤ 5
      ∧ readMany (writeAll bufSink [] [([] : List Nat)]) 5 1 =
          ([([], some .eof)], [])) := by
  decide

/-- C1 (amended): for every sequence of payloads, each of length at most the
capacity of the reader's buffer, where the capacity is below 2^32 and the
last payload (if any) is nonempty, writing them in order with the writer's
`Write` and then calling the reader's `Read` that many times yields back
exactly the payloads in order with no error, each `Read` delivering the
corresponding payload (so its returned count is that payload's length). -/
theorem c1_roundtrip (ps : List (List Nat)) (cap : Nat)
    (hcap : cap < 4294967296) (hfit : ∀ p ∈ ps, p.length ≤ cap)
    (hlast : ps.getLast? ≠ some []) :
    readMany (writeAll bufSink [] ps) cap ps.length =
      (ps.map fun p => (p, none), []) := by
  rw [writeAll_bufSink]
  have := readMany_encodeFrames ps [] cap hcap hfit (fun _ => hlast)
  simpa using this

/-- Witness for C1 at two concrete payloads and a 5-byte buffer. -/
theorem c1_roundtrip_witness :
    readMany (writeAll bufSink [] [[7, 8], [9]]) 5 [[7, 8], [9]].length =
      ([[7, 8], [9]].map fun p => (p, none), []) :=
  c1_roundtrip [[7, 8], [9]] 5 (by decide) (by decide) (by decide)

/-- C2: the claim as frozen is false when payload B is empty: after writing
A = [1, 2] then B = [] and reading with a 1-byte buffer, the first read
skips A with `ErrTargetBufferTooSmall` as claimed, but the second read
returns the end-of-stream error instead of delivering B with no error,
because the `bytes.Reader` source is exhausted when `Read(p[:0])` runs. -/
theorem c2_too_small_recovery_cex :
    (([] : List Nat).length ≤ 1 ∧ 1 < [1, 2].length)
    ∧ recordReader.Read (writeAll bufSink [] [[1, 2], ([] : List Nat)]) 1 =
        ([], encodeFrame [], some .targetBufferTooSmall)
    ∧ recordReader.Read (encodeFrame []) 1 = ([], [], some .eof) := by
  decide

/-- C2 (amended): whenever the decoded frame length exceeds the buffer
capacity and the frame's bytes are all available, `Read` discards exactly
`length` bytes and returns `ErrTargetBufferTooSmall` with nothing delivered;
consequently, after writing payload A (of length below 2^32, the writer's
representable range) then a nonempty payload B with `1 ≤ Lb ≤ C < La`,
the first `Read` with that buffer skips A returning the error and the
second `Read` delivers B exactly with no error. -/
theorem c2_too_small_recovery :
    (∀ b0 b1 b2 b3 : Nat, ∀ rest : List Nat, ∀ cap : Nat,
      cap < decodeLE32 b0 b1 b2 b3 → decodeLE32 b0 b1 b2 b3 ≤ rest.length →
      recordReader.Read (b0 :: b1 :: b2 :: b3 :: rest) cap =
        ([], rest.drop (decodeLE32 b0 b1 b2 b3), some .targetBufferTooSmall))
    ∧ (∀ A B : List Nat, ∀ cap : Nat,
      1 ≤ B.length → B.length ≤ cap → cap < A.length → A.length < 4294967296 →
      recordReader.Read (writeAll bufSink [] [A, B]) cap =
        ([], encodeFrame B, some .targetBufferTooSmall)
      ∧ recordReader.Read (encodeFrame B) cap = (B, [], none)) := by
  constructor
  · intro b0 b1 b2 b3 rest cap hbig havail
    exact read_discard_ok b0 b1 b2 b3 rest cap
      (lt_of_le_of_lt (Nat.mod_le cap 4294967296) hbig) havail
  · intro A B cap hB1 hBcap hcapA hA
    have hcap : cap < 4294967296 := lt_trans hcapA hA
    have hmod : cap % 4294967296 = cap := Nat.mod_eq_of_lt hcap
    have hBne : B ≠ [] := by
      intro h
      subst h
      simp at hB1
    constructor
    · rw [writeAll_bufSink]
      have := read_frame_skip A (encodeFrame B) cap hA (by omega)
      simpa [encodeFrames] using this
    · have := read_frame B [] cap hcap hBcap (by simpa using hBne)
      simpa using this

/-- Witness for C2 with A = [1, 2, 3], B = [4] and a 2-byte buffer. -/
theorem c2_too_small_recovery_witness :
    recordReader.Read (writeAll bufSink [] [[1, 2, 3], [4]]) 2 =
      ([], encodeFrame [4], some .targetBufferTooSmall)
    ∧ recordReader.Read (encodeFrame [4]) 2 = ([4], [], none) :=
  c2_too_small_recovery.2 [1, 2, 3] [4] 2 (by decide) (by decide) (by decide) (by decide)

/-- C3: after consuming any sequence of complete frames (each payload
fitting a buffer shorter than 2^32), a `Read` at the exact end of the
stream returns the end-of-stream signal `io.EOF`, while a `Read` facing 1–3
trailing bytes (a truncated length prefix) returns `io.ErrUnexpectedEOF`,
which is distinct from the end-of-stream signal. -/
theorem c3_end_of_stream_exactness (ps : List (List Nat)) (t : List Nat) (cap : Nat)
    (hcap : cap < 4294967296) (hfit : ∀ p ∈ ps, p.length ≤ cap) :
    (t = [] →
      recordReader.Read (readMany (encodeFrames ps ++ t) cap ps.length).2 cap =
        ([], [], some .eof))
    ∧ (1 ≤ t.length → t.length ≤ 3 →
      recordReader.Read (readMany (encodeFrames ps ++ t) cap ps.length).2 cap =
        ([], [], some .unexpectedEOF))
    ∧ IOErr.unexpectedEOF ≠ IOErr.eof := by
  rw [readMany_encodeFrames_rest ps t cap hcap hfit]
  refine ⟨?_, ?_, by decide⟩
  · intro ht
    subst ht
    rfl
  · intro h1 h3
    cases t with
    | nil => simp at h1
    | cons a t1 =>
      cases t1 with
      | nil => rfl
      | cons b t2 =>
        cases t2 with
        | nil => rfl
        | cons c t3 =>
          cases t3 with
          | nil => rfl
          | cons d t4 => simp at h3

/-- Witness for C3: one complete frame followed by a single trailing byte. -/
theorem c3_end_of_stream_exactness_witness :
    recordReader.Read (readMany (encodeFrames [[1]] ++ [9]) 5 [[1]].length).2 5 =
      ([], [], some .unexpectedEOF) :=
  (c3_end_of_stream_exactness [[1]] [9] 5 (by decide) (by decide)).2.1
    (by decide) (by decide)

/-- C4: the claim as frozen is false when the zero-length frame ends the
stream: reading the stream `[0, 0, 0, 0]` (a single zero-length frame) with
a 5-byte buffer returns the end-of-stream error, not no error, because
`r.reader.Read(p[:0])` on the exhausted `bytes.Reader` reports `io.EOF`. -/
theorem c4_zero_length_cex :
    recordReader.Read [0, 0, 0, 0] 5 = ([], [], some .eof)
    ∧ some IOErr.eof ≠ (none : Option IOErr) := by
  decide

/-- C4 (amended): reading a zero-length frame followed by further bytes
delivers 0 bytes with no error for every buffer; but when the zero-length
frame is the last thing in the stream, `Read` delivers 0 bytes with the
source's end-of-stream signal instead of no error. -/
theorem c4_zero_length :
    (∀ rest : List Nat, ∀ cap : Nat, rest ≠ [] →
      recordReader.Read (0 :: 0 :: 0 :: 0 :: rest) cap = ([], rest, none))
    ∧ (∀ cap : Nat, recordReader.Read [0, 0, 0, 0] cap = ([], [], some .eof)) := by
  constructor
  · intro rest cap hne
    have h0 : decodeLE32 0 0 0 0 = 0 := by simp [decodeLE32]
    have := read_deliver 0 0 0 0 rest cap (by simp [h0]) hne
    simpa [h0] using this
  · intro cap
    have := read_frame_empty_end cap
    simpa [encodeFrame, le32] using this

/-- Witness for C4 with one byte following the zero-length frame. -/
theorem c4_zero_length_witness :
    recordReader.Read (0 :: 0 :: 0 :: 0 :: [9]) 3 = ([], [9], none) :=
  c4_zero_length.1 [9] 3 (by decide)

/-- C5: the claim as frozen is false on the code: a stream that ends right
after a length prefix announcing 5 payload bytes, read with a big-enough
buffer, returns exactly the clean end-of-stream signal `io.EOF`, because the
deliver path forwards the single underlying read's result unchanged. -/
theorem c5_midframe_truncation_cex :
    recordReader.Read [5, 0, 0, 0] 8 = ([], [], some .eof) := by
  decide

/-- C5 (amended): mid-frame truncation yields an error distinct from the
end-of-stream signal only in the discard path (frame length above the
buffer capacity), where the failed skip returns the wrapped source error;
in the deliver path, `Read` forwards the single underlying read's result:
with some payload bytes available it returns them with no error at all, and
with none available it returns the clean end-of-stream signal itself. -/
theorem c5_midframe_truncation :
    (∀ b0 b1 b2 b3 : Nat, ∀ rest : List Nat, ∀ cap : Nat,
      cap % 4294967296 < decodeLE32 b0 b1 b2 b3 →
      rest.length < decodeLE32 b0 b1 b2 b3 →
      recordReader.Read (b0 :: b1 :: b2 :: b3 :: rest) cap =
        ([], [], some (.wrapSkip .eof)) ∧ IOErr.wrapSkip .eof ≠ .eof)
    ∧ (∀ b0 b1 b2 b3 : Nat, ∀ rest : List Nat, ∀ cap : Nat,
      decodeLE32 b0 b1 b2 b3 ≤ cap % 4294967296 → rest ≠ [] →
      rest.length < decodeLE32 b0 b1 b2 b3 →
      recordReader.Read (b0 :: b1 :: b2 :: b3 :: rest) cap = (rest, [], none))
    ∧ (∀ b0 b1 b2 b3 : Nat, ∀ cap : Nat,
      0 < decodeLE32 b0 b1 b2 b3 → decodeLE32 b0 b1 b2 b3 ≤ cap % 4294967296 →
      recordReader.Read [b0, b1, b2, b3] cap = ([], [], some .eof)) := by
  refine ⟨?_, ?_, ?_⟩
  · intro b0 b1 b2 b3 rest cap hbig hshort
    exact ⟨read_discard_fail b0 b1 b2 b3 rest cap hbig hshort, by decide⟩
  · intro b0 b1 b2 b3 rest cap hfit hne hshort
    have := read_deliver b0 b1 b2 b3 rest cap hfit hne
    simpa [List.take_of_length_le (le_of_lt hshort),
      List.drop_eq_nil_of_le (le_of_lt hshort)] using this
  · intro b0 b1 b2 b3 cap h0 hfit
    exact read_deliver_end b0 b1 b2 b3 cap hfit

/-- Witness for C5: a frame announcing 3 bytes with only 2 available and a
big-enough buffer delivers the 2 bytes with no error. -/
theorem c5_midframe_truncation_witness :
    recordReader.Read [3, 0, 0, 0, 1, 2] 5 = ([1, 2], [], none) :=
  c5_midframe_truncation.2.1 3 0 0 0 [1, 2] 5 (by decide) (by decide) (by decide)

/-- C6: for every payload of length below 2^32, the writer emits exactly the
four little-endian bytes of the length followed by the payload, reporting
the payload's length and no error, and those four bytes decode back to
exactly the length — independent of the payload's content. -/
theorem c6_length_fidelity (p : List Nat) (h : p.length < 4294967296) :
    recordWriter.Write bufSink [] p = (le32 p.length ++ p, p.length, none)
    ∧ decodeLE32 (p.length % 256) (p.length / 256 % 256) (p.length / 65536 % 256)
        (p.length / 16777216 % 256) = p.length :=
  ⟨by simpa [encodeFrame] using write_bufSink [] p, decodeLE32_le32 p.length h⟩

/-- Witness for C6 at an all-0xFF payload. -/
theorem c6_length_fidelity_witness :
    recordWriter.Write bufSink [] [255, 255, 255] =
      (le32 [255, 255, 255].length ++ [255, 255, 255], [255, 255, 255].length, none)
    ∧ decodeLE32 ([255, 255, 255].length % 256) ([255, 255, 255].length / 256 % 256)
        ([255, 255, 255].length / 65536 % 256) ([255, 255, 255].length / 16777216 % 256) =
      [255, 255, 255].length :=
  c6_length_fidelity [255, 255, 255] (by decide)

/-- C7: for every sink whose write of the 4-byte length prefix fails, the
writer returns the sink's error with a zero count and performs no further
write, so the sink's state is exactly what the prefix attempt left and no
payload byte reaches the sink; concretely, on a capacity-limited sink that
fails atomically, the sink's contents are unchanged. -/
theorem c7_writer_atomicity :
    (∀ (σ : Type) (S : Sink σ) (s : σ) (p : List Nat) (e : IOErr),
      (S.write s (le32 p.length)).2.2 = some e →
      recordWriter.Write S s p = ((S.write s (le32 p.length)).1, 0, some e))
    ∧ (∀ (limit : Nat) (s0 p : List Nat), limit < s0.length + 4 →
      recordWriter.Write (capSink limit) s0 p = (s0, 0, some .sinkFull)) := by
  constructor
  · intro σ S s p e he
    simp only [recordWriter.Write, he]
  · intro limit s0 p hlim
    have hcond : ¬ (s0.length + (le32 p.length).length ≤ limit) := by
      simp only [le32, List.length_cons, List.length_nil]
      omega
    simp [recordWriter.Write, capSink, hcond]

/-- Witness for C7: a 2-byte sink cannot take the 4-byte length prefix. -/
theorem c7_writer_atomicity_witness :
    recordWriter.Write (capSink 2) [] [42] = ([], 0, some .sinkFull) :=
  c7_writer_atomicity.2 2 [] [42] (by decide)

/-- C8: whenever the decoded frame length exceeds the buffer capacity and
fewer than `length` bytes remain to skip, `Read` returns zero bytes and the
wrapped underlying end-of-data error — not `ErrTargetBufferTooSmall`. -/
theorem c8_discard_escalation (b0 b1 b2 b3 : Nat) (rest : List Nat) (cap : Nat)
    (hbig : cap < decodeLE32 b0 b1 b2 b3)
    (hshort : rest.length < decodeLE32 b0 b1 b2 b3) :
    recordReader.Read (b0 :: b1 :: b2 :: b3 :: rest) cap =
      ([], [], some (.wrapSkip .eof))
    ∧ IOErr.wrapSkip .eof ≠ .targetBufferTooSmall :=
  ⟨read_discard_fail b0 b1 b2 b3 rest cap
      (lt_of_le_of_lt (Nat.mod_le cap 4294967296) hbig) hshort,
    by decide⟩

/-- Witness for C8: a frame announcing 9 bytes over a source holding 1. -/
theorem c8_discard_escalation_witness :
    recordReader.Read [9, 0, 0, 0, 1] 3 = ([], [], some (.wrapSkip .eof))
    ∧ IOErr.wrapSkip .eof ≠ .targetBufferTooSmall :=
  c8_discard_escalation 9 0 0 0 [1] 3 (by decide) (by decide)

/-- C9: the claim as frozen is false on the code for buffers of length 2^32
or more: with capacity 2^32 + 1, a frame of decoded length 2 is at most the
buffer capacity, yet `Read` does not perform the single payload read
(whose result would be the two bytes and no error) — it discards the frame
and returns `ErrTargetBufferTooSmall`. -/
theorem c9_single_read_cex :
    decodeLE32 2 0 0 0 ≤ 4294967297
    ∧ recordReader.Read [2, 0, 0, 0, 10, 20] 4294967297 =
        ([], [], some .targetBufferTooSmall)
    ∧ srcRead [10, 20] (decodeLE32 2 0 0 0) = ([10, 20], [], none) := by
  decide

/-- C9 (amended): when the decoded frame length is at most the buffer
capacity reduced modulo 2^32 (equivalently, at most the capacity, for
buffers shorter than 2^32), `Read`'s result is exactly that of the single
underlying source read requesting exactly `length` bytes; in particular a
source holding fewer than `length` bytes makes `Read` return those fewer
bytes with no error. -/
theorem c9_single_read :
    (∀ b0 b1 b2 b3 : Nat, ∀ rest : List Nat, ∀ cap : Nat,
      decodeLE32 b0 b1 b2 b3 ≤ cap % 4294967296 →
      recordReader.Read (b0 :: b1 :: b2 :: b3 :: rest) cap =
        srcRead rest (decodeLE32 b0 b1 b2 b3))
    ∧ (∀ b0 b1 b2 b3 : Nat, ∀ rest : List Nat, ∀ cap : Nat,
      decodeLE32 b0 b1 b2 b3 ≤ cap % 4294967296 → rest ≠ [] →
      rest.length < decodeLE32 b0 b1 b2 b3 →
      recordReader.Read (b0 :: b1 :: b2 :: b3 :: rest) cap = (rest, [], none)) := by
  constructor
  · intro b0 b1 b2 b3 rest cap hfit
    simp only [recordReader.Read, binaryReadU32]
    rw [if_neg (Nat.not_lt.mpr hfit)]
  · intro b0 b1 b2 b3 rest cap hfit hne hshort
    have := read_deliver b0 b1 b2 b3 rest cap hfit hne
    simpa [List.take_of_length_le (le_of_lt hshort),
      List.drop_eq_nil_of_le (le_of_lt hshort)] using this

/-- Witness for C9: a frame announcing 4 bytes over a source holding 1. -/
theorem c9_single_read_witness :
    recordReader.Read [4, 0, 0, 0, 7] 6 = ([7], [], none) :=
  c9_single_read.2 4 0 0 0 [7] 6 (by decide) (by decide) (by decide)

/-- C10: for every buffer of length at least 2^32 and every available frame
of genuine byte values whose decoded length exceeds the buffer length
reduced modulo 2^32, `Read` discards the frame and returns
`ErrTargetBufferTooSmall`, even though the decoded length is at most the
buffer's real capacity (the payload would fit). -/
theorem c10_mod_capacity (b0 b1 b2 b3 : Nat) (rest : List Nat) (cap : Nat)
    (hb0 : b0 < 256) (hb1 : b1 < 256) (hb2 : b2 < 256) (hb3 : b3 < 256)
    (hcap : 4294967296 ≤ cap)
    (hbig : cap % 4294967296 < decodeLE32 b0 b1 b2 b3)
    (havail : decodeLE32 b0 b1 b2 b3 ≤ rest.length) :
    recordReader.Read (b0 :: b1 :: b2 :: b3 :: rest) cap =
      ([], rest.drop (decodeLE32 b0 b1 b2 b3), some .targetBufferTooSmall)
    ∧ decodeLE32 b0 b1 b2 b3 ≤ cap := by
  refine ⟨read_discard_ok b0 b1 b2 b3 rest cap hbig havail, ?_⟩
  have h32 : decodeLE32 b0 b1 b2 b3 < 4294967296 := by
    simp only [decodeLE32]
    omega
  omega

/-- Witness for C10: a 7-byte frame against a buffer of length 2^32 + 3. -/
theorem c10_mod_capacity_witness :
    recordReader.Read [7, 0, 0, 0, 1, 2, 3, 4, 5, 6, 7] 4294967299 =
      ([], [1, 2, 3, 4, 5, 6, 7].drop (decodeLE32 7 0 0 0), some .targetBufferTooSmall)
    ∧ decodeLE32 7 0 0 0 ≤ 4294967299 :=
  c10_mod_capacity 7 0 0 0 [1, 2, 3, 4, 5, 6, 7] 4294967299 (by decide) (by decide)
    (by decide) (by decide) (by decide) (by decide) (by decide)
